import Mathlib

/-!
Verification of the live session coordinator of the meetingagent repository.

The Python sources are shallowly embedded:
* `src/app/services/redis_service.py` — the session store (`Store` and its
  operations `getMeetingState`, `save_meeting_state`, `append_transcript`,
  `get_transcript`, `update_field`).
* `src/app/websocket/handler.py` — the streaming relay (`wsStep`,
  `wsTeardown`), covering the `on_transcript` callback, the control-frame
  loop and the `finally` cleanup.
* `src/app/api/meetings.py` — the request operations (`join_meeting`,
  `get_brief`, `ask_endpoint`, `leave_meeting`).
* `src/app/models/schemas.py` — `MeetingStatus` and the `AskQuestionRequest`
  length bounds (min_length 5, max_length 500), enforced by request
  validation before the route handler runs.

Transcript text is modelled as `List Char`; Python's `str.strip()` is
modelled over the ASCII whitespace class.  Time stamps (`last_activity`,
`started_at`) are irrelevant to the claims and omitted; the Redis key TTL
set by `expire(key, 86400)` is modelled as a `ttl` field of the stored
record, refreshed by `save_meeting_state`.  External collaborators
(Recall.ai, OpenAI, Deepgram) are modelled by recording the calls the code
issues to them; their replies are assumed to succeed.
-/

namespace MeetingAgent

/-- Characters removed by Python `str.strip()`, restricted to the ASCII
whitespace class: space, tab, newline, carriage return, vertical tab,
form feed. -/
def isPyWS (c : Char) : Bool :=
  c = ' ' || c = '\t' || c = '\n' || c = '\r' || c = '\x0b' || c = '\x0c'

/-- Python `str.lstrip()` on a list of characters. -/
def lstripL (l : List Char) : List Char := l.dropWhile isPyWS

/-- Python `str.rstrip()` on a list of characters. -/
def rstripL (l : List Char) : List Char := List.rdropWhile isPyWS l

/-- Python `str.strip()`: remove leading and trailing whitespace. -/
def pyStrip (l : List Char) : List Char := rstripL (lstripL l)

/-- A buffer with no leading or trailing whitespace (fixed point of
`pyStrip`). -/
def isStripped (l : List Char) : Prop := pyStrip l = l

instance (l : List Char) : Decidable (isStripped l) :=
  inferInstanceAs (Decidable (pyStrip l = l))

/-- Python slicing `l[start:]` with Python's negative-index convention:
a negative start counts from the end and is clamped at 0. -/
def pySliceFrom (l : List Char) (start : Int) : List Char :=
  if start < 0 then l.drop ((l.length + start).toNat) else l.drop start.toNat

/-- `MeetingStatus` from `src/app/models/schemas.py`. -/
inductive MeetingStatus
  | pending
  | active
  | ended
  | error
deriving DecidableEq

/-- The session record stored under `meeting:id` in Redis, with the fields
the claims depend on (`src/app/api/meetings.py`, `join_meeting`).  `ttl`
models the remaining key expiry in seconds set by
`RedisService.save_meeting_state`. -/
structure MeetingState where
  meeting_id : String
  user_id : String
  bot_id : String
  status : MeetingStatus
  platform : String
  transcript : List Char
  speakers : List String
  ttl : Nat
deriving DecidableEq

/-- The Redis key space: an association list from meeting id to record. -/
def Store := List (String × MeetingState)

instance : DecidableEq Store := inferInstanceAs (DecidableEq (List (String × MeetingState)))

/-- `RedisService.get_meeting_state`: look up `meeting:id`, `None` when the
key is absent or expired. -/
def getMeetingState : Store → String → Option MeetingState
  | [], _ => none
  | (k, v) :: rest, id => if k = id then some v else getMeetingState rest id

/-- Write a record under a key, replacing an existing entry (Redis `SET`). -/
def setState : Store → String → MeetingState → Store
  | [], id, st => [(id, st)]
  | (k, v) :: rest, id, st =>
      if k = id then (id, st) :: rest else (k, v) :: setState rest id st

/-- `RedisService.save_meeting_state`: `SET` the record, then
`EXPIRE key 86400` — every successful write refreshes the TTL to the full
24-hour window. -/
def save_meeting_state (store : Store) (id : String) (st : MeetingState) : Store :=
  setState store id { st with ttl := 86400 }

/-- `RedisService.append_transcript`: read the record; when present, set
`transcript` to `f"{current}\n{text}".strip()` and save; when absent, do
nothing and raise no error. -/
def append_transcript (store : Store) (id : String) (text : List Char) : Store :=
  match getMeetingState store id with
  | some st =>
      save_meeting_state store id
        { st with transcript := pyStrip (st.transcript ++ '\n' :: text) }
  | none => store

/-- `RedisService.get_transcript`: return the full transcript, or, when
`last_n_chars` is truthy (not `None` and nonzero) and the transcript is
longer, the Python slice `transcript[-last_n_chars:]`.  Unknown session
yields the empty string. -/
def get_transcript (store : Store) (id : String) (last_n_chars : Option Int) : List Char :=
  match getMeetingState store id with
  | some st =>
      match last_n_chars with
      | some n =>
          if n ≠ 0 ∧ (st.transcript.length : Int) > n then
            pySliceFrom st.transcript (-n)
          else st.transcript
      | none => st.transcript
  | none => []

/-- The two fields the repository ever passes to
`RedisService.update_field`: `"status"` (relay and leave) and `"speakers"`
(briefing). -/
inductive FieldUpdate
  | status (v : MeetingStatus)
  | speakers (v : List String)
deriving DecidableEq

/-- `RedisService.update_field`: read the record; when present, overwrite
the one field and save; when absent, do nothing and raise no error. -/
def update_field (store : Store) (id : String) (u : FieldUpdate) : Store :=
  match getMeetingState store id with
  | some st =>
      save_meeting_state store id
        (match u with
         | .status v => { st with status := v }
         | .speakers v => { st with speakers := v })
  | none => store

/-- The fresh record written by `join_meeting` (`src/app/api/meetings.py`):
status `PENDING`, empty transcript, no speakers. -/
def initialMeetingState (bot_id user_id platform : String) : MeetingState :=
  { meeting_id := bot_id, user_id := user_id, bot_id := bot_id,
    status := .pending, platform := platform, transcript := [],
    speakers := [], ttl := 0 }

/-- `join_meeting`: after the Recall.ai bot is created with id `bot_id`,
store the initial record under that id. -/
def join_meeting (store : Store) (bot_id user_id platform : String) : Store :=
  save_meeting_state store bot_id (initialMeetingState bot_id user_id platform)

/-- Result of `leave_meeting` (`src/app/api/meetings.py`): the updated
store, whether the request succeeded (`ok = false` models the 404 on an
unknown session), and the bot ids sent a Recall.ai `leave` call during the
request. -/
structure LeaveResult where
  store : Store
  ok : Bool
  recallLeaveCalls : List String
deriving DecidableEq

/-- `leave_meeting`: look the session up (404 when absent); otherwise call
`recall_service.leave_meeting(state["bot_id"])` unconditionally, then set
`status` to `ENDED` and return success.  The Recall.ai call is assumed to
succeed. -/
def leave_meeting (store : Store) (id : String) : LeaveResult :=
  match getMeetingState store id with
  | none => { store := store, ok := false, recallLeaveCalls := [] }
  | some st =>
      { store := update_field store id (.status .ended), ok := true,
        recallLeaveCalls := [st.bot_id] }

/-- `get_brief`: look the session up (404 when absent); empty transcript
returns the canned response with no store write; otherwise, when the stored
speaker list is empty, write the list computed by
`openai_service.analyze_speakers` (passed in as `analyzed`).  The `Bool` is
request success. -/
def get_brief (store : Store) (id : String) (analyzed : List String) : Store × Bool :=
  match getMeetingState store id with
  | none => (store, false)
  | some st =>
      if st.transcript = [] then (store, true)
      else if st.speakers = [] then
        (update_field store id (.speakers analyzed), true)
      else (store, true)

/-- Collaborator calls the `ask` route can issue. -/
inductive Collaborator
  | openaiGenerateResponse
  | recallSendSpeech
deriving DecidableEq

/-- Result of the `ask` route: HTTP-level outcome and the collaborator
calls issued.  `ask_question` performs no store write. -/
structure AskResult where
  ok : Bool
  httpStatus : Nat
  calls : List Collaborator
deriving DecidableEq

/-- The `ask` route including request validation: FastAPI rejects the body
with 422 when `question` violates `AskQuestionRequest`'s bounds
(`min_length=5`, `max_length=500` in `src/app/models/schemas.py`) before
`ask_question` runs; the handler then 404s on an unknown session, and
otherwise calls OpenAI generation and Recall.ai speech. -/
def ask_endpoint (store : Store) (id : String) (question : String) : AskResult :=
  if 5 ≤ question.length ∧ question.length ≤ 500 then
    match getMeetingState store id with
    | none => { ok := false, httpStatus := 404, calls := [] }
    | some _ =>
        { ok := true, httpStatus := 200,
          calls := [.openaiGenerateResponse, .recallSendSpeech] }
  else { ok := false, httpStatus := 422, calls := [] }

/-- Messages `handle_websocket` sends to the client. -/
inductive ClientMsg
  | transcriptUpdate (text : List Char) (is_final : Bool)
  | ack
  | pong
deriving DecidableEq

/-- One input to the per-connection relay loop: a parsed control frame, a
malformed text frame, a binary audio frame, or a Deepgram transcript event
(`result.channel.alternatives[0].transcript` and `result.is_final`). -/
inductive WsEvent
  | meetingStarted (mid : String)
  | ping
  | malformed
  | audio
  | transcriptEvent (text : List Char) (is_final : Bool)
deriving DecidableEq

/-- Result of one relay step: the connection's `meeting_id` binding, the
store, and the messages sent to the client. -/
structure WsStepResult where
  conn : Option String
  store : Store
  sent : List ClientMsg
deriving DecidableEq

/-- One step of `handle_websocket` (`src/app/websocket/handler.py`):
* `meeting_started` control frame: bind `meeting_id`, unconditionally set
  `status` to `ACTIVE` via `update_field`, send an `ack`;
* `ping`: send `pong`, no state change;
* malformed text frame: log and ignore;
* binary audio: forwarded to Deepgram, no store or client interaction;
* transcript event (`on_transcript`): empty text returns immediately; a
  final event appends to Redis and sends a final `transcript_update` only
  when a `meeting_id` is bound (both are inside `if meeting_id:`); an
  interim event sends an interim `transcript_update`. -/
def wsStep (conn : Option String) (store : Store) : WsEvent → WsStepResult
  | .meetingStarted mid =>
      { conn := some mid,
        store := update_field store mid (.status .active),
        sent := [.ack] }
  | .ping => { conn := conn, store := store, sent := [.pong] }
  | .malformed => { conn := conn, store := store, sent := [] }
  | .audio => { conn := conn, store := store, sent := [] }
  | .transcriptEvent text is_final =>
      if text.length = 0 then { conn := conn, store := store, sent := [] }
      else if is_final then
        match conn with
        | some mid =>
            { conn := conn, store := append_transcript store mid text,
              sent := [.transcriptUpdate text true] }
        | none => { conn := conn, store := store, sent := [] }
      else { conn := conn, store := store, sent := [.transcriptUpdate text false] }

/-- The `finally` block of `handle_websocket`: when a `meeting_id` is
bound, set `status` to `ENDED`. -/
def wsTeardown (conn : Option String) (store : Store) : Store :=
  match conn with
  | some mid => update_field store mid (.status .ended)
  | none => store

/-- Scenario B of the spec: a fresh connection receives the
`meeting_started` control frame for session `m1`, then a final transcript
event with text `"hello team"`; the resulting store. -/
def runScenarioB (store : Store) : Store :=
  let r1 := wsStep none store (.meetingStarted "m1")
  let r2 := wsStep r1.conn r1.store (.transcriptEvent "hello team".toList true)
  r2.store

/-- The core operations claim C7 quantifies over, as they touch the store.
`ask` and `status` perform no store write, so they are identity on the
store. -/
inductive CoreOp
  | append (id : String) (text : List Char)
  | wsStart (id : String)
  | teardown (id : String)
  | leaveOp (id : String)
  | briefOp (id : String) (analyzed : List String)
  | joinOp (bot_id user_id platform : String)
  | askOp (id : String) (question : String)
  | statusOp (id : String)
deriving DecidableEq

/-- Apply one core operation to the store. -/
def applyOp (store : Store) : CoreOp → Store
  | .append id text => append_transcript store id text
  | .wsStart id => (wsStep none store (.meetingStarted id)).store
  | .teardown id => wsTeardown (some id) store
  | .leaveOp id => (leave_meeting store id).store
  | .briefOp id analyzed => (get_brief store id analyzed).1
  | .joinOp bot_id user_id platform => join_meeting store bot_id user_id platform
  | .askOp _ _ => store
  | .statusOp _ => store

/-- For `joinOp` the created bot id is fresh (Recall.ai assigns a new bot
id per create; the spec's uniqueness invariant); no constraint on the other
operations. -/
def opFresh (store : Store) : CoreOp → Prop
  | .joinOp bot_id _ _ => getMeetingState store bot_id = none
  | _ => True

instance (store : Store) (op : CoreOp) : Decidable (opFresh store op) := by
  cases op <;> simp only [opFresh] <;> infer_instance

/-- The status of a stored session, when present. -/
def statusOf (store : Store) (id : String) : Option MeetingStatus :=
  (getMeetingState store id).map (·.status)

/-- The transcript of a stored session, when present. -/
def transcriptOf (store : Store) (id : String) : Option (List Char) :=
  (getMeetingState store id).map (·.transcript)

/-- The transcript of a stored session, empty when absent. -/
def transcriptD (store : Store) (id : String) : List Char :=
  (transcriptOf store id).getD []

/-- The remaining TTL of a stored session, when present. -/
def ttlOf (store : Store) (id : String) : Option Nat :=
  (getMeetingState store id).map (·.ttl)

/-! ### Store lemmas -/

theorem getMeetingState_setState_self (store : Store) (id : String) (st : MeetingState) :
    getMeetingState (setState store id st) id = some st := by
  induction store with
  | nil => simp [setState, getMeetingState]
  | cons p rest ih =>
      obtain ⟨k, v⟩ := p
      by_cases h : k = id
      · simp [setState, h, getMeetingState]
      · simp [setState, h, getMeetingState, ih]

theorem getMeetingState_setState_other (store : Store) (id k0 : String) (st : MeetingState)
    (h : k0 ≠ id) :
    getMeetingState (setState store id st) k0 = getMeetingState store k0 := by
  have hne : id ≠ k0 := fun h1 => h h1.symm
  induction store with
  | nil => simp [setState, getMeetingState, hne]
  | cons p rest ih =>
      obtain ⟨k, v⟩ := p
      by_cases hk : k = id
      · subst hk
        simp [setState, getMeetingState, hne]
      · simp only [setState, if_neg hk, getMeetingState]
        by_cases hk0 : k = k0 <;> simp [hk0, ih]

theorem getMeetingState_update_field (store : Store) (id : String) (u : FieldUpdate)
    (st : MeetingState) (h : getMeetingState store id = some st) :
    getMeetingState (update_field store id u) id =
      some { (match u with
              | FieldUpdate.status v => { st with status := v }
              | FieldUpdate.speakers v => { st with speakers := v }) with ttl := 86400 } := by
  simp [update_field, h, save_meeting_state, getMeetingState_setState_self]

/-! ### Python strip lemmas -/

theorem length_dropWhile_le' {α : Type} (p : α → Bool) (l : List α) :
    (l.dropWhile p).length ≤ l.length := by
  induction l with
  | nil => simp
  | cons a t ih =>
      by_cases h : p a
      · simp only [List.dropWhile_cons, if_pos h, List.length_cons]
        omega
      · simp [List.dropWhile_cons, if_neg h]

theorem dropWhile_eq_self_of_length {α : Type} (p : α → Bool) (l : List α)
    (h : (l.dropWhile p).length = l.length) : l.dropWhile p = l := by
  cases l with
  | nil => simp
  | cons a t =>
      by_cases hp : p a
      · exfalso
        have h1 := length_dropWhile_le' p t
        simp only [List.dropWhile_cons, if_pos hp] at h
        simp only [List.length_cons] at h
        omega
      · simp [List.dropWhile_cons, if_neg hp]

theorem lstripL_of_isStripped (l : List Char) (h : isStripped l) : lstripL l = l := by
  have hlen1 : (rstripL (lstripL l)).length ≤ (lstripL l).length := by
    unfold rstripL List.rdropWhile
    calc ((lstripL l).reverse.dropWhile isPyWS).reverse.length
        = ((lstripL l).reverse.dropWhile isPyWS).length := by
          simp
      _ ≤ (lstripL l).reverse.length := length_dropWhile_le' _ _
      _ = (lstripL l).length := by simp
  have hlen2 : (lstripL l).length ≤ l.length := length_dropWhile_le' _ _
  have hlen : (lstripL l).length = l.length := by
    have := congrArg List.length h
    unfold pyStrip at this
    omega
  exact dropWhile_eq_self_of_length _ _ hlen

theorem rstripL_of_isStripped (l : List Char) (h : isStripped l) : rstripL l = l := by
  have h1 := lstripL_of_isStripped l h
  unfold isStripped pyStrip at h
  rwa [h1] at h

theorem dropWhile_reverse_of_isStripped (l : List Char) (h : isStripped l) :
    l.reverse.dropWhile isPyWS = l.reverse := by
  have h1 := rstripL_of_isStripped l h
  unfold rstripL List.rdropWhile at h1
  have := congrArg List.reverse h1
  simpa using this

theorem head_not_ws_of_isStripped (a : Char) (t : List Char) (h : isStripped (a :: t)) :
    isPyWS a = false := by
  have h1 := lstripL_of_isStripped _ h
  unfold lstripL at h1
  by_contra hb
  have ha : isPyWS a = true := by
    cases hv : isPyWS a
    · exact absurd hv hb
    · rfl
  rw [List.dropWhile_cons, if_pos ha] at h1
  have := congrArg List.length h1
  have hle := length_dropWhile_le' isPyWS t
  simp only [List.length_cons] at this
  omega

theorem dropWhile_append_of_nil {α : Type} (p : α → Bool) (a b : List α)
    (h : a.dropWhile p = []) : (a ++ b).dropWhile p = b.dropWhile p := by
  induction a with
  | nil => simp
  | cons x xs ih =>
      by_cases hx : p x
      · simp only [List.dropWhile_cons, if_pos hx] at h
        simp only [List.cons_append, List.dropWhile_cons, if_pos hx]
        exact ih h
      · simp only [List.dropWhile_cons, if_neg hx] at h
        exact absurd h (List.cons_ne_nil x xs)

theorem dropWhile_append_of_ne {α : Type} (p : α → Bool) (a b : List α)
    (h : a.dropWhile p ≠ []) : (a ++ b).dropWhile p = a.dropWhile p ++ b := by
  induction a with
  | nil => simp at h
  | cons x xs ih =>
      by_cases hx : p x
      · simp only [List.dropWhile_cons, if_pos hx] at h
        simp only [List.cons_append, List.dropWhile_cons, if_pos hx]
        rw [ih h]
      · simp [List.cons_append, List.dropWhile_cons, if_neg hx]

theorem length_rdropWhile_le {α : Type} (p : α → Bool) (l : List α) :
    (List.rdropWhile p l).length ≤ l.length := by
  simp only [List.rdropWhile, List.length_reverse]
  have := length_dropWhile_le' p l.reverse
  simpa using this

/-- Appending via `f"{old}\n{text}".strip()` only ever extends a stripped
buffer: the old buffer is an initial segment of the result. -/
theorem pyStrip_append_grow (old text : List Char) (h : isStripped old) :
    ∃ rest, pyStrip (old ++ '\n' :: text) = old ++ rest := by
  cases old with
  | nil => exact ⟨pyStrip ('\n' :: text), by simp⟩
  | cons a t =>
      have ha : isPyWS a = false := head_not_ws_of_isStripped a t h
      have hl : lstripL ((a :: t) ++ '\n' :: text) = (a :: t) ++ '\n' :: text := by
        unfold lstripL
        rw [List.cons_append, List.dropWhile_cons]
        simp [ha]
      have hrev : (a :: t).reverse.dropWhile isPyWS = (a :: t).reverse :=
        dropWhile_reverse_of_isStripped _ h
      by_cases hnil : ('\n' :: text).reverse.dropWhile isPyWS = []
      · have key : pyStrip ((a :: t) ++ '\n' :: text) = a :: t := by
          unfold pyStrip
          rw [hl]
          unfold rstripL List.rdropWhile
          rw [List.reverse_append, dropWhile_append_of_nil _ _ _ hnil, hrev,
            List.reverse_reverse]
        exact ⟨[], by rw [key, List.append_nil]⟩
      · have key : pyStrip ((a :: t) ++ '\n' :: text) =
            (a :: t) ++ (('\n' :: text).reverse.dropWhile isPyWS).reverse := by
          unfold pyStrip
          rw [hl]
          unfold rstripL List.rdropWhile
          rw [List.reverse_append, dropWhile_append_of_ne _ _ _ hnil,
            List.reverse_append, List.reverse_reverse]
        exact ⟨_, key⟩

/-- The exact value of `f"{old}\n{text}".strip()` when both the buffer and
the appended text carry no surrounding whitespace. -/
theorem pyStrip_append_of_stripped (old text : List Char)
    (ho : isStripped old) (ht : isStripped text) :
    pyStrip (old ++ '\n' :: text) =
      if text = [] then old
      else if old = [] then text
      else old ++ '\n' :: text := by
  cases text with
  | nil =>
      simp only [if_pos rfl]
      cases old with
      | nil => decide
      | cons a t =>
          have ha : isPyWS a = false := head_not_ws_of_isStripped a t ho
          have hl : lstripL ((a :: t) ++ ['\n']) = (a :: t) ++ ['\n'] := by
            unfold lstripL
            rw [List.cons_append, List.dropWhile_cons]
            simp [ha]
          have hr := rstripL_of_isStripped (a :: t) ho
          unfold rstripL at hr
          unfold pyStrip
          rw [hl]
          unfold rstripL
          rw [List.rdropWhile_concat_pos _ _ _ (by decide : isPyWS '\n' = true)]
          exact hr
  | cons c cs =>
      obtain htx | ⟨t3, x, htx⟩ := List.eq_nil_or_concat (c :: cs)
      · exact absurd htx (List.cons_ne_nil c cs)
      · rw [List.concat_eq_append] at htx
        have hx : isPyWS x = false := by
          by_contra hb
          have hx1 : isPyWS x = true := by
            cases hv : isPyWS x
            · exact absurd hv hb
            · rfl
          have h2 := rstripL_of_isStripped (c :: cs) ht
          unfold rstripL at h2
          rw [htx, List.rdropWhile_concat_pos _ _ _ hx1] at h2
          have hlen := congrArg List.length h2
          have hle := length_rdropWhile_le isPyWS t3
          simp only [List.length_append, List.length_singleton] at hlen
          omega
        cases old with
        | nil =>
            have hlt := lstripL_of_isStripped (c :: cs) ht
            have hrt := rstripL_of_isStripped (c :: cs) ht
            have key : pyStrip ([] ++ '\n' :: c :: cs) = c :: cs := by
              unfold pyStrip
              rw [List.nil_append]
              unfold lstripL
              rw [List.dropWhile_cons, if_pos (by decide : isPyWS '\n' = true)]
              unfold lstripL at hlt
              rw [hlt]
              exact hrt
            rw [key]
            simp
        | cons a t =>
            have ha : isPyWS a = false := head_not_ws_of_isStripped a t ho
            have hl : lstripL ((a :: t) ++ '\n' :: c :: cs) =
                (a :: t) ++ '\n' :: c :: cs := by
              unfold lstripL
              rw [List.cons_append, List.dropWhile_cons]
              simp [ha]
            have hassoc : (a :: t) ++ '\n' :: c :: cs =
                ((a :: t) ++ '\n' :: t3) ++ [x] := by
              rw [htx]
              simp
            have key : pyStrip ((a :: t) ++ '\n' :: c :: cs) =
                (a :: t) ++ '\n' :: c :: cs := by
              unfold pyStrip
              rw [hl]
              unfold rstripL
              rw [hassoc, List.rdropWhile_concat_neg _ _ _ (by simp [hx]), ← hassoc]
            rw [key]
            simp

/-! ### Projection lemmas for the store operations -/

theorem transcriptOf_append (store : Store) (id : String) (st : MeetingState)
    (text : List Char) (h : getMeetingState store id = some st) :
    transcriptOf (append_transcript store id text) id =
      some (pyStrip (st.transcript ++ '\n' :: text)) := by
  simp [append_transcript, h, save_meeting_state, transcriptOf,
    getMeetingState_setState_self]

theorem statusOf_append (store : Store) (id : String) (st : MeetingState)
    (text : List Char) (h : getMeetingState store id = some st) :
    statusOf (append_transcript store id text) id = some st.status := by
  simp [append_transcript, h, save_meeting_state, statusOf,
    getMeetingState_setState_self]

theorem statusOf_update_status (store : Store) (id : String) (v : MeetingStatus)
    (st : MeetingState) (h : getMeetingState store id = some st) :
    statusOf (update_field store id (.status v)) id = some v := by
  simp [update_field, h, save_meeting_state, statusOf,
    getMeetingState_setState_self]

theorem statusOf_update_speakers (store : Store) (id : String) (v : List String)
    (st : MeetingState) (h : getMeetingState store id = some st) :
    statusOf (update_field store id (.speakers v)) id = some st.status := by
  simp [update_field, h, save_meeting_state, statusOf,
    getMeetingState_setState_self]

theorem transcriptD_update_field (store : Store) (id : String) (u : FieldUpdate)
    (s : String) :
    transcriptD (update_field store id u) s = transcriptD store s := by
  cases hget : getMeetingState store id with
  | none => simp [update_field, hget]
  | some st =>
      by_cases hid : id = s
      · subst hid
        cases u <;>
          simp [update_field, hget, save_meeting_state, transcriptD, transcriptOf,
            getMeetingState_setState_self]
      · cases u <;>
          simp [update_field, hget, save_meeting_state, transcriptD, transcriptOf,
            getMeetingState_setState_other _ _ _ _ (fun hc => hid hc.symm)]

/-- A session record with the given status and transcript, otherwise sample
values; used for concrete witnesses. -/
def mkState (status : MeetingStatus) (transcript : List Char) : MeetingState :=
  { meeting_id := "m1", user_id := "u1", bot_id := "b1", status := status,
    platform := "zoom", transcript := transcript, speakers := [], ttl := 86400 }

/-! ### Claims -/

/-- Claim C8: an ask request whose question is shorter than 5 characters or
longer than 500 characters fails validation with HTTP 422 before any
collaborator (OpenAI generation or Recall.ai speech) is invoked. -/
theorem C8_ask_validation (store : Store) (id question : String)
    (h : question.length < 5 ∨ 500 < question.length) :
    (ask_endpoint store id question).calls = [] ∧
    (ask_endpoint store id question).ok = false ∧
    (ask_endpoint store id question).httpStatus = 422 := by
  have hcond : ¬ (5 ≤ question.length ∧ question.length ≤ 500) := by omega
  simp [ask_endpoint, hcond]

/-- Witness for C8: a 4-character question is rejected with no collaborator
call. -/
theorem C8_witness :
    ("abcd".length < 5 ∨ 500 < "abcd".length) ∧
    (ask_endpoint [] "m1" "abcd").calls = [] :=
  ⟨by decide, (C8_ask_validation [] "m1" "abcd" (by decide)).1⟩

/-- Claim C9: each successful store write — the record created at join, a
transcript append to an existing record, a field update to an existing
record — refreshes the record's expiry to the full 24-hour window
(86400 seconds). -/
theorem C9_ttl_refresh (store : Store) (id bot_id user_id platform : String)
    (text : List Char) (u : FieldUpdate) (st : MeetingState)
    (h : getMeetingState store id = some st) :
    ttlOf (join_meeting store bot_id user_id platform) bot_id = some 86400 ∧
    ttlOf (append_transcript store id text) id = some 86400 ∧
    ttlOf (update_field store id u) id = some 86400 := by
  refine ⟨?_, ?_, ?_⟩
  · simp [join_meeting, save_meeting_state, ttlOf, getMeetingState_setState_self]
  · simp [append_transcript, h, save_meeting_state, ttlOf,
      getMeetingState_setState_self]
  · cases u <;>
      simp [update_field, h, save_meeting_state, ttlOf,
        getMeetingState_setState_self]

/-- Witness for C9 at a concrete store. -/
theorem C9_witness :
    getMeetingState [("m1", mkState .pending [])] "m1" = some (mkState .pending []) ∧
    ttlOf (append_transcript [("m1", mkState .pending [])] "m1" "hi".toList) "m1" =
      some 86400 :=
  ⟨by decide,
   (C9_ttl_refresh [("m1", mkState .pending [])] "m1" "b2" "u2" "zoom" "hi".toList
     (.status .active) (mkState .pending []) (by decide)).2.1⟩

/-- Claim C10: `update_field` and `append_transcript` on a session id
absent from the store return normally and change nothing, while the relay
still acknowledges the `meeting_started` control frame naming that id. -/
theorem C10_missing_session_noop (store : Store) (id : String)
    (text : List Char) (u : FieldUpdate)
    (h : getMeetingState store id = none) :
    append_transcript store id text = store ∧
    update_field store id u = store ∧
    (wsStep none store (.meetingStarted id)).sent = [.ack] ∧
    (wsStep none store (.meetingStarted id)).store = store := by
  refine ⟨?_, ?_, rfl, ?_⟩
  · simp [append_transcript, h]
  · simp [update_field, h]
  · simp [wsStep, update_field, h]

/-- Witness for C10: an empty store. -/
theorem C10_witness :
    getMeetingState [] "ghost" = none ∧
    append_transcript [] "ghost" "hi".toList = [] ∧
    (wsStep none [] (.meetingStarted "ghost")).sent = [.ack] :=
  ⟨rfl,
   (C10_missing_session_noop [] "ghost" "hi".toList (.status .active) rfl).1,
   (C10_missing_session_noop [] "ghost" "hi".toList (.status .active) rfl).2.2.1⟩

/-- Counterexample to claim C1 as stated: on a session whose status is
already `Ended`, handling a `meeting_started` control frame (a relay
control-frame operation) sets the status back to `Active` — `update_field`
is called unconditionally. -/
theorem C1_counterexample :
    statusOf [("m1", mkState .ended [])] "m1" = some .ended ∧
    statusOf (wsStep (some "m1") [("m1", mkState .ended [])]
        (.meetingStarted "m1")).store "m1" = some .active := by
  decide

/-- Claim C1, amended: once a session's status is `Ended`, relay teardown,
leave, brief, transcript append, and the `ping`/malformed control frames
never move the status to another value; only the `meeting_started` control
frame can (it sets `Active` unconditionally, as the counterexample
shows). -/
theorem C1_ended_stable (store : Store) (id : String) (st : MeetingState)
    (text : List Char) (analyzed : List String)
    (h : getMeetingState store id = some st) (hE : st.status = .ended) :
    statusOf (wsTeardown (some id) store) id = some .ended ∧
    statusOf (leave_meeting store id).store id = some .ended ∧
    statusOf (get_brief store id analyzed).1 id = some .ended ∧
    statusOf (append_transcript store id text) id = some .ended ∧
    (wsStep (some id) store .ping).store = store ∧
    (wsStep (some id) store .malformed).store = store := by
  refine ⟨?_, ?_, ?_, ?_, rfl, rfl⟩
  · simp only [wsTeardown]
    exact statusOf_update_status store id .ended st h
  · simp only [leave_meeting, h]
    exact statusOf_update_status store id .ended st h
  · by_cases h1 : st.transcript = []
    · simp [get_brief, h, h1, statusOf, hE]
    · by_cases h2 : st.speakers = []
      · simp only [get_brief, h, if_neg h1, if_pos h2]
        rw [statusOf_update_speakers store id analyzed st h, hE]
      · simp [get_brief, h, h1, h2, statusOf, hE]
  · rw [statusOf_append store id st text h, hE]

/-- Witness for the amended C1 at a concrete ended session. -/
theorem C1_witness :
    getMeetingState [("m1", mkState .ended [])] "m1" = some (mkState .ended []) ∧
    statusOf (wsTeardown (some "m1") [("m1", mkState .ended [])]) "m1" =
      some .ended ∧
    statusOf (leave_meeting [("m1", mkState .ended [])] "m1").store "m1" =
      some .ended :=
  ⟨by decide,
   (C1_ended_stable [("m1", mkState .ended [])] "m1" (mkState .ended [])
     [] [] (by decide) rfl).1,
   (C1_ended_stable [("m1", mkState .ended [])] "m1" (mkState .ended [])
     [] [] (by decide) rfl).2.1⟩

/-- Claim C2 (Scenario B): a connection that receives the
`meeting_started` control frame for session `m1` and then a final
transcript event with text `"hello team"` leaves session `m1` (present in
the store with an empty transcript, as `join_meeting` creates it) with
transcript `"hello team"` and status `Active`. -/
theorem C2_scenario_b (store : Store) (st : MeetingState)
    (h : getMeetingState store "m1" = some st) (hT : st.transcript = []) :
    transcriptOf (runScenarioB store) "m1" = some "hello team".toList ∧
    statusOf (runScenarioB store) "m1" = some .active := by
  have hstep : runScenarioB store =
      append_transcript (update_field store "m1" (.status .active)) "m1"
        "hello team".toList := rfl
  have h1 : getMeetingState (update_field store "m1" (.status .active)) "m1" =
      some { st with status := .active, ttl := 86400 } :=
    getMeetingState_update_field store "m1" (.status .active) st h
  constructor
  · rw [hstep, transcriptOf_append _ _ _ _ h1]
    simp only [hT]
    decide
  · rw [hstep, statusOf_append _ _ _ _ h1]

/-- Witness for C2 at a concrete pending session. -/
theorem C2_witness :
    getMeetingState [("m1", mkState .pending [])] "m1" =
      some (mkState .pending []) ∧
    transcriptOf (runScenarioB [("m1", mkState .pending [])]) "m1" =
      some "hello team".toList ∧
    statusOf (runScenarioB [("m1", mkState .pending [])]) "m1" = some .active :=
  ⟨by decide,
   (C2_scenario_b [("m1", mkState .pending [])] (mkState .pending [])
     (by decide) rfl).1,
   (C2_scenario_b [("m1", mkState .pending [])] (mkState .pending [])
     (by decide) rfl).2⟩

/-- Counterexample to claim C3 as stated: appending text with trailing
whitespace to a non-empty buffer does not produce `old ++ "\n" ++ text` —
the code stores `f"{old}\n{text}".strip()`, which removes the trailing
space. -/
theorem C3_counterexample :
    transcriptOf (append_transcript [("s", mkState .active "b".toList)] "s"
        "a ".toList) "s" = some "b\na".toList ∧
    "b\na".toList ≠ "b\na ".toList := by
  decide

/-- Claim C3, amended: for text carrying no leading or trailing whitespace
appended to a buffer carrying none (which is how the relay-maintained
buffer always looks), empty text leaves the buffer unchanged, text on an
empty buffer becomes the buffer, and otherwise the buffer becomes the old
buffer, one separating newline, then the text; with surrounding whitespace
the stored value is `strip(old ++ newline ++ text)` instead. -/
theorem C3_append_characterization (store : Store) (id : String)
    (st : MeetingState) (text : List Char)
    (h : getMeetingState store id = some st)
    (hb : isStripped st.transcript) (ht : isStripped text) :
    transcriptOf (append_transcript store id text) id =
      some (if text = [] then st.transcript
            else if st.transcript = [] then text
            else st.transcript ++ '\n' :: text) := by
  rw [transcriptOf_append store id st text h,
    pyStrip_append_of_stripped _ _ hb ht]

/-- Witness for the amended C3, covering Scenario E: appending
`"point two"` after `"point one"` yields `"point one\npoint two"`. -/
theorem C3_witness :
    getMeetingState [("s", mkState .active "point one".toList)] "s" =
      some (mkState .active "point one".toList) ∧
    transcriptOf (append_transcript [("s", mkState .active "point one".toList)]
        "s" "point two".toList) "s" = some "point one\npoint two".toList := by
  refine ⟨by decide, ?_⟩
  have h := C3_append_characterization
    [("s", mkState .active "point one".toList)] "s"
    (mkState .active "point one".toList) "point two".toList
    (by decide) (by decide) (by decide)
  rw [h]
  decide

/-- Counterexample to claim C4 as stated: `max_chars = 0` is falsy in the
guard `if last_n_chars and ...`, so the full buffer is returned — more
than 0 characters. -/
theorem C4_counterexample :
    get_transcript [("s", mkState .active "ab".toList)] "s" (some 0) =
      "ab".toList ∧
    ¬ ((get_transcript [("s", mkState .active "ab".toList)] "s"
        (some 0)).length ≤ 0) := by
  decide

/-- Claim C4, amended: for every positive `max_chars = N`, the returned
text has at most `N` characters and is a trailing slice of the stored
buffer; with `max_chars` absent (or 0) the full buffer is returned. -/
theorem C4_read_window (store : Store) (id : String) (st : MeetingState)
    (h : getMeetingState store id = some st) (n : Int) (hn : 1 ≤ n) :
    ((get_transcript store id (some n)).length : Int) ≤ n ∧
    (∃ pre, pre ++ get_transcript store id (some n) = st.transcript) ∧
    get_transcript store id none = st.transcript := by
  have hcond : n ≠ 0 := by omega
  have hresdef : get_transcript store id (some n) =
      if n ≠ 0 ∧ (st.transcript.length : Int) > n then
        pySliceFrom st.transcript (-n)
      else st.transcript := by
    simp [get_transcript, h]
  refine ⟨?_, ?_, ?_⟩
  · rw [hresdef]
    by_cases hlen : (st.transcript.length : Int) > n
    · rw [if_pos ⟨hcond, hlen⟩]
      unfold pySliceFrom
      rw [if_pos (by omega : -n < 0)]
      rw [List.length_drop]
      omega
    · rw [if_neg (fun hc => hlen hc.2)]
      omega
  · rw [hresdef]
    by_cases hlen : (st.transcript.length : Int) > n
    · rw [if_pos ⟨hcond, hlen⟩]
      unfold pySliceFrom
      rw [if_pos (by omega : -n < 0)]
      exact ⟨st.transcript.take _, List.take_append_drop _ _⟩
    · rw [if_neg (fun hc => hlen hc.2)]
      exact ⟨[], rfl⟩
  · simp [get_transcript, h]

/-- Witness for the amended C4 at a concrete buffer and window. -/
theorem C4_witness :
    getMeetingState [("s", mkState .active "abc".toList)] "s" =
      some (mkState .active "abc".toList) ∧
    ((get_transcript [("s", mkState .active "abc".toList)] "s"
        (some 2)).length : Int) ≤ 2 ∧
    (∃ pre, pre ++ get_transcript [("s", mkState .active "abc".toList)] "s"
        (some 2) = "abc".toList) := by
  have h := C4_read_window [("s", mkState .active "abc".toList)] "s"
    (mkState .active "abc".toList) (by decide) 2 (by decide)
  exact ⟨by decide, h.1, h.2.1⟩

/-- Counterexample to claim C5 as stated: a final provider transcript
event with non-empty text on a connection with no bound session forwards
nothing to the client — in `on_transcript` the `send_json` for final text
sits inside `if meeting_id:`, so the event is dropped entirely, not just
its aggregator append. -/
theorem C5_counterexample :
    (wsStep none [] (.transcriptEvent "hi".toList true)).sent = [] ∧
    (wsStep none [] (.transcriptEvent "hi".toList true)).store = [] := by
  decide

/-- Claim C5, amended: a final provider transcript event with non-empty
text is forwarded to the client as a final transcript-update and appended
via the aggregator only when a session is bound; with no session bound,
both the forward and the append are skipped and the text is dropped. -/
theorem C5_final_forward (conn : Option String) (store : Store)
    (text : List Char) (h : text ≠ []) :
    (match conn with
     | some mid =>
         (wsStep conn store (.transcriptEvent text true)).sent =
           [.transcriptUpdate text true] ∧
         (wsStep conn store (.transcriptEvent text true)).store =
           append_transcript store mid text
     | none =>
         (wsStep conn store (.transcriptEvent text true)).sent = [] ∧
         (wsStep conn store (.transcriptEvent text true)).store = store) := by
  have hlen : ¬ text.length = 0 := by simpa using h
  cases conn <;> simp [wsStep, hlen]

/-- Witness for the amended C5 on a bound connection. -/
theorem C5_witness :
    (wsStep (some "m1") [] (.transcriptEvent "hi".toList true)).sent =
      [.transcriptUpdate "hi".toList true] ∧
    (wsStep (some "m1") [] (.transcriptEvent "hi".toList true)).store =
      append_transcript [] "m1" "hi".toList :=
  C5_final_forward (some "m1") [] "hi".toList (by decide)

/-- Counterexample to claim C6 as stated: a leave request on a session that
is already `Ended` still issues a Recall.ai leave call for the bot —
`recall_service.leave_meeting` is called unconditionally before the status
write, so the side effect is re-triggered. -/
theorem C6_counterexample :
    (leave_meeting [("m1", mkState .ended [])] "m1").recallLeaveCalls =
      ["b1"] ∧
    ["b1"] ≠ ([] : List String) := by
  decide

/-- Claim C6, amended: a leave request on an existing session whose status
is already `Ended` succeeds (no error) and leaves the status `Ended`, but
it does re-issue the bot-automation leave call for the session's bot. -/
theorem C6_leave_idempotent_outcome (store : Store) (id : String)
    (st : MeetingState) (h : getMeetingState store id = some st)
    (_hE : st.status = .ended) :
    (leave_meeting store id).ok = true ∧
    statusOf (leave_meeting store id).store id = some .ended ∧
    (leave_meeting store id).recallLeaveCalls = [st.bot_id] := by
  refine ⟨?_, ?_, ?_⟩
  · simp [leave_meeting, h]
  · simp only [leave_meeting, h]
    exact statusOf_update_status store id .ended st h
  · simp [leave_meeting, h]

/-- Witness for the amended C6 at a concrete ended session. -/
theorem C6_witness :
    getMeetingState [("m1", mkState .ended [])] "m1" =
      some (mkState .ended []) ∧
    (leave_meeting [("m1", mkState .ended [])] "m1").ok = true ∧
    statusOf (leave_meeting [("m1", mkState .ended [])] "m1").store "m1" =
      some .ended :=
  ⟨by decide,
   (C6_leave_idempotent_outcome [("m1", mkState .ended [])] "m1"
     (mkState .ended []) (by decide) rfl).1,
   (C6_leave_idempotent_outcome [("m1", mkState .ended [])] "m1"
     (mkState .ended []) (by decide) rfl).2.1⟩

/-- Claim C7: every core operation only ever extends a session's stored
transcript — the value before the operation is an initial segment of the
value after it.  The transcript before is assumed free of surrounding
whitespace, which is how every reachable buffer looks (`join_meeting`
writes `""` and `append_transcript` always stores a `strip`ped value);
for `joinOp` the freshly assigned bot id is not already a stored key
(Recall.ai assigns a new bot id per create). -/
theorem C7_transcript_grows (store : Store) (s : String) (op : CoreOp)
    (hstrip : isStripped (transcriptD store s)) (hfresh : opFresh store op) :
    ∃ rest, transcriptD (applyOp store op) s = transcriptD store s ++ rest := by
  cases op with
  | append id text =>
      by_cases hid : id = s
      · subst hid
        cases hget : getMeetingState store id with
        | none => exact ⟨[], by simp [applyOp, append_transcript, hget]⟩
        | some st =>
            have ht : transcriptD store id = st.transcript := by
              simp [transcriptD, transcriptOf, hget]
            rw [ht] at hstrip
            obtain ⟨rest, hrest⟩ := pyStrip_append_grow st.transcript text hstrip
            refine ⟨rest, ?_⟩
            have hT := transcriptOf_append store id st text hget
            simp only [applyOp]
            rw [ht]
            simp [transcriptD, hT, hrest]
      · refine ⟨[], ?_⟩
        rw [List.append_nil]
        simp only [applyOp]
        cases hget : getMeetingState store id with
        | none => simp [append_transcript, hget]
        | some st =>
            simp [append_transcript, hget, save_meeting_state, transcriptD,
              transcriptOf,
              getMeetingState_setState_other _ _ _ _ (fun hc => hid hc.symm)]
  | wsStart id =>
      exact ⟨[], by simp [applyOp, wsStep, transcriptD_update_field]⟩
  | teardown id =>
      exact ⟨[], by simp [applyOp, wsTeardown, transcriptD_update_field]⟩
  | leaveOp id =>
      refine ⟨[], ?_⟩
      rw [List.append_nil]
      cases hget : getMeetingState store id <;>
        simp [applyOp, leave_meeting, hget, transcriptD_update_field]
  | briefOp id analyzed =>
      refine ⟨[], ?_⟩
      rw [List.append_nil]
      cases hget : getMeetingState store id with
      | none => simp [applyOp, get_brief, hget]
      | some st =>
          by_cases h1 : st.transcript = []
          · simp [applyOp, get_brief, hget, h1]
          · by_cases h2 : st.speakers = []
            · simp [applyOp, get_brief, hget, h1, h2, transcriptD_update_field]
            · simp [applyOp, get_brief, hget, h1, h2]
  | joinOp bot_id user_id platform =>
      have hnone : getMeetingState store bot_id = none := hfresh
      by_cases hid : bot_id = s
      · subst hid
        have hbefore : transcriptD store bot_id = [] := by
          simp [transcriptD, transcriptOf, hnone]
        refine ⟨[], ?_⟩
        rw [hbefore]
        simp [applyOp, join_meeting, save_meeting_state, transcriptD,
          transcriptOf, getMeetingState_setState_self, initialMeetingState]
      · refine ⟨[], ?_⟩
        rw [List.append_nil]
        simp [applyOp, join_meeting, save_meeting_state, transcriptD,
          transcriptOf,
          getMeetingState_setState_other _ _ _ _ (fun hc => hid hc.symm)]
  | askOp id question => exact ⟨[], by simp [applyOp]⟩
  | statusOp id => exact ⟨[], by simp [applyOp]⟩

/-- Witness for C7: a concrete append extends the stored buffer. -/
theorem C7_witness :
    isStripped (transcriptD [("m1", mkState .active "hi".toList)] "m1") ∧
    ∃ rest,
      transcriptD
        (applyOp [("m1", mkState .active "hi".toList)]
          (.append "m1" "yo".toList)) "m1" =
      transcriptD [("m1", mkState .active "hi".toList)] "m1" ++ rest :=
  ⟨by decide,
   C7_transcript_grows [("m1", mkState .active "hi".toList)] "m1"
     (.append "m1" "yo".toList) (by decide) trivial⟩

end MeetingAgent
